import Mathlib

/-!
Verification of the progress-streaming protocol and build-repair loop of the
lovable-clone repository.

The embedding covers:
* the stdout line demultiplexer and marker decoder of
  `lovable-ui/app/api/modify-app/route.ts` (the `POST` handler's
  `child.stdout.on("data", ...)` callback),
* the stderr handler and the terminal `complete`/`error`/`[DONE]`/close
  sequence of the same handler,
* the `verifyAndFixBuild` build-repair loop of the modification script
  embedded in `lovable-ui/scripts/modify-app.ts`.

Strings are modelled as `List Char` (the decoded text of each chunk).
`JSON.parse` is modelled by a small executable parser over the JSON grammar
(objects, arrays, strings with escapes, numbers kept as raw digit strings,
`true`/`false`/`null`); JavaScript property access on a parsed value is
modelled by `jsGet`, which fails (throws) exactly on `null`.
-/

namespace LovableClone

/-- JavaScript `String.prototype.trim` whitespace set (WhiteSpace and
LineTerminator code points). -/
def isJsTrimWs (c : Char) : Bool :=
  c = ' ' || c = '\t' || c = '\n' || c = '\x0B' || c = '\x0C' || c = '\r' ||
  c = ' ' || c = '﻿' || c = ' ' ||
  c = ' ' || c = ' ' || c = ' ' || c = ' ' ||
  c = ' ' || c = ' ' || c = ' ' || c = ' ' ||
  c = ' ' || c = ' ' || c = ' ' ||
  c = ' ' || c = ' ' || c = ' ' || c = ' ' || c = '　'

/-- JavaScript `String.prototype.trim`: drop leading and trailing whitespace. -/
def trimJs (s : List Char) : List Char :=
  ((s.dropWhile isJsTrimWs).reverse.dropWhile isJsTrimWs).reverse

/-- Whether `pat` is a leading segment of `l` (used to model `String.indexOf`). -/
def hasPfx : List Char → List Char → Bool
  | [], _ => true
  | _ :: _, [] => false
  | a :: as, b :: bs => a = b && hasPfx as bs

/-- Index of the first occurrence of `pat` in `l`, as in
JavaScript `l.indexOf(pat)` (but `none` instead of `-1`). -/
def subIdx (pat : List Char) : List Char → Option Nat
  | [] => if pat.isEmpty then some 0 else none
  | c :: rest =>
    if hasPfx pat (c :: rest) then some 0 else (subIdx pat rest).map (· + 1)

/-- JavaScript `l.includes(pat)`. -/
def containsSub (l pat : List Char) : Bool := (subIdx pat l).isSome

/-- JavaScript newline split with the final element separated out:
first component is the list of complete lines (everything before each
newline), second component is the trailing fragment after the last newline
(the re-buffered part, `lines.pop()` in the source). -/
def splitNl : List Char → List (List Char) × List Char
  | [] => ([], [])
  | c :: rest =>
    if c = '\n' then ([] :: (splitNl rest).1, (splitNl rest).2)
    else
      match splitNl rest with
      | ([], t) => ([], c :: t)
      | (l :: ls, t) => ((c :: l) :: ls, t)

/-- JSON values as produced by `JSON.parse`. Numbers keep their raw
numeral characters (no floating-point semantics is needed by any claim). -/
inductive Json where
  | null
  | bool (b : Bool)
  | num (raw : List Char)
  | str (s : List Char)
  | arr (elems : List Json)
  | obj (mems : List (List Char × Json))

/-- JSON grammar insignificant whitespace. -/
def isJsonWs (c : Char) : Bool :=
  c = ' ' || c = '\t' || c = '\n' || c = '\r'

def skipJsonWs (s : List Char) : List Char := s.dropWhile isJsonWs

def hexVal (c : Char) : Option Nat :=
  if '0' ≤ c ∧ c ≤ '9' then some (c.toNat - '0'.toNat)
  else if 'a' ≤ c ∧ c ≤ 'f' then some (c.toNat - 'a'.toNat + 10)
  else if 'A' ≤ c ∧ c ≤ 'F' then some (c.toNat - 'A'.toNat + 10)
  else none

/-- Single-character JSON string escapes. -/
def escChar (c : Char) : Option Char :=
  if c = '"' then some '"'
  else if c = '\\' then some '\\'
  else if c = '/' then some '/'
  else if c = 'b' then some '\x08'
  else if c = 'f' then some '\x0C'
  else if c = 'n' then some '\n'
  else if c = 'r' then some '\r'
  else if c = 't' then some '\t'
  else none

/-- Body of a JSON string after the opening quote; returns the decoded
characters and the remainder after the closing quote. -/
def parseStrBody : List Char → Option (List Char × List Char)
  | [] => none
  | c :: rest =>
    if c = '"' then some ([], rest)
    else if c = '\\' then
      match rest with
      | [] => none
      | e :: rest2 =>
        if e = 'u' then
          match rest2 with
          | h1 :: h2 :: h3 :: h4 :: rest3 =>
            match hexVal h1, hexVal h2, hexVal h3, hexVal h4 with
            | some a, some b, some c2, some d =>
              match parseStrBody rest3 with
              | some (cs, r) => some (Char.ofNat (((a * 16 + b) * 16 + c2) * 16 + d) :: cs, r)
              | none => none
            | _, _, _, _ => none
          | _ => none
        else
          match escChar e with
          | some ec =>
            match parseStrBody rest2 with
            | some (cs, r) => some (ec :: cs, r)
            | none => none
          | none => none
    else if c.toNat < 32 then none
    else
      match parseStrBody rest with
      | some (cs, r) => some (c :: cs, r)
      | none => none

/-- One or more decimal digits. -/
def digits1 (s : List Char) : Option (List Char × List Char) :=
  if (s.takeWhile Char.isDigit).isEmpty then none
  else some (s.takeWhile Char.isDigit, s.dropWhile Char.isDigit)

/-- JSON number grammar: `-? (0 | [1-9][0-9]*) (. [0-9]+)? ([eE][+-]?[0-9]+)?`;
returns the raw numeral characters. -/
def parseNum (s : List Char) : Option (List Char × List Char) :=
  let (sgn, s1) := match s with
    | '-' :: r => (['-'], r)
    | _ => (([] : List Char), s)
  match
    (match s1 with
     | '0' :: r => some (['0'], r)
     | c :: _ =>
       if c.isDigit then digits1 s1 else none
     | [] => none : Option (List Char × List Char))
  with
  | none => none
  | some (ip, s2) =>
    let (fp, s3) := match s2 with
      | '.' :: r =>
        (match digits1 r with
         | some (ds, r2) => ('.' :: ds, r2)
         | none => ([], '.' :: r))
      | _ => (([] : List Char), s2)
    -- a dot not followed by digits is a syntax error
    if decide (s2 ≠ s3) || (match s2 with | '.' :: _ => false | _ => true) then
      match s3 with
      | e :: r =>
        if e = 'e' ∨ e = 'E' then
          let (es, r2) := match r with
            | '+' :: r2 => (['+'], r2)
            | '-' :: r2 => (['-'], r2)
            | _ => (([] : List Char), r)
          match digits1 r2 with
          | some (ds, r3) => some (sgn ++ ip ++ fp ++ e :: es ++ ds, r3)
          | none => none
        else some (sgn ++ ip ++ fp, s3)
      | [] => some (sgn ++ ip ++ fp, [])
    else none

mutual

/-- Recursive-descent parser for a JSON value (fuel-indexed). -/
def parseVal : Nat → List Char → Option (Json × List Char)
  | 0, _ => none
  | fuel + 1, s =>
    match skipJsonWs s with
    | [] => none
    | c :: rest =>
      if c = '{' then
        match skipJsonWs rest with
        | '}' :: r => some (.obj [], r)
        | _ =>
          match parseMems fuel rest with
          | some (ms, r) => some (.obj ms, r)
          | none => none
      else if c = '[' then
        match skipJsonWs rest with
        | ']' :: r => some (.arr [], r)
        | _ =>
          match parseElems fuel rest with
          | some (es, r) => some (.arr es, r)
          | none => none
      else if c = '"' then
        match parseStrBody rest with
        | some (cs, r) => some (.str cs, r)
        | none => none
      else if c = 't' then
        match rest with
        | 'r' :: 'u' :: 'e' :: r => some (.bool true, r)
        | _ => none
      else if c = 'f' then
        match rest with
        | 'a' :: 'l' :: 's' :: 'e' :: r => some (.bool false, r)
        | _ => none
      else if c = 'n' then
        match rest with
        | 'u' :: 'l' :: 'l' :: r => some (.null, r)
        | _ => none
      else
        match parseNum (c :: rest) with
        | some (ds, r) => some (.num ds, r)
        | none => none

/-- Comma-separated array elements up to the closing bracket. -/
def parseElems : Nat → List Char → Option (List Json × List Char)
  | 0, _ => none
  | fuel + 1, s =>
    match parseVal fuel s with
    | none => none
    | some (j, r) =>
      match skipJsonWs r with
      | ',' :: r2 =>
        match parseElems fuel r2 with
        | some (js, r3) => some (j :: js, r3)
        | none => none
      | ']' :: r2 => some ([j], r2)
      | _ => none

/-- Comma-separated object members up to the closing brace. -/
def parseMems : Nat → List Char → Option (List (List Char × Json) × List Char)
  | 0, _ => none
  | fuel + 1, s =>
    match skipJsonWs s with
    | '"' :: rest =>
      match parseStrBody rest with
      | none => none
      | some (k, r) =>
        match skipJsonWs r with
        | ':' :: r2 =>
          match parseVal fuel r2 with
          | none => none
          | some (v, r3) =>
            match skipJsonWs r3 with
            | ',' :: r4 =>
              match parseMems fuel r4 with
              | some (ms, r5) => some ((k, v) :: ms, r5)
              | none => none
            | '}' :: r4 => some ([(k, v)], r4)
            | _ => none
        | _ => none
    | _ => none

end

/-- Model of `JSON.parse` on a whole string: one value, optionally surrounded by
whitespace; anything else throws (`none`). -/
def parseJson (s : List Char) : Option Json :=
  match parseVal (s.length + 1) s with
  | some (j, r) => if skipJsonWs r = [] then some j else none
  | none => none

/-- Last-wins lookup of key `k` in a parsed object's member list
(`JSON.parse` keeps the last duplicate key). -/
def jsLookup (ms : List (List Char × Json)) (k : List Char) : Option Json :=
  match ms with
  | [] => none
  | (k1, v) :: rest =>
    match jsLookup rest k with
    | some v2 => some v2
    | none => if k1 = k then some v else none

/-- JavaScript property access `j.k` on a `JSON.parse` result:
`none` models a thrown `TypeError` (access on `null`); otherwise
`some` of the field value, `some none` being `undefined`. -/
def jsGet (j : Json) (k : List Char) : Option (Option Json) :=
  match j with
  | .null => none
  | .obj ms => some (jsLookup ms k)
  | _ => some none

/-! ### Marker tokens and literals of `route.ts` -/

def mClaudeMessage : List Char := "__CLAUDE_MESSAGE__".data
def mToolUse : List Char := "__TOOL_USE__".data
def mClaudeFix : List Char := "__CLAUDE_FIX__".data
def mToolFix : List Char := "__TOOL_FIX__".data
def mHealingStart : List Char := "__HEALING_START__".data
def mHealingEnd : List Char := "__HEALING_END__".data
def mHealSuccess : List Char := "__HEAL_SUCCESS__".data
def mHealFailed : List Char := "__HEAL_FAILED__".data
def mModComplete : List Char := "__MODIFICATION_COMPLETE__".data

def lClaudeTag : List Char := "[Claude]:".data
def lToolTag : List Char := "[Tool]:".data
def lDunder : List Char := "__".data

def keyContent : List Char := "content".data
def keyName : List Char := "name".data
def keyInput : List Char := "input".data
def keyAttempt : List Char := "attempt".data
def keyError : List Char := "error".data
def keyAttempts : List Char := "attempts".data

def errTok : List Char := "Error".data
def failTok : List Char := "Failed".data

/-- The typed events written to the subscriber stream by the `POST`
handler, one per `writer.write` of a `data:`-JSON payload.
`healingStatusFailed` is the `__HEAL_FAILED__` event with `error` and
`attempts` fields; `healingStatusFailedPlain` is the fields-absent
variant written in its `catch` block. -/
inductive Event where
  | claudeMessage (content : Option Json)
  | toolUse (name input : Option Json)
  | healingMessage (content attempt : Option Json)
  | healingTool (name input attempt : Option Json)
  | healingStatusStarting
  | healingStatusEnded
  | healingStatusSuccess
  | healingStatusFailed (error attempts : Option Json)
  | healingStatusFailedPlain
  | modificationComplete
  | progress (message : List Char)
  | errorEv (message : List Char)
  | complete

/-- The text after the first occurrence of marker `m` in `line`, trimmed —
`line.substring(line.indexOf(m) + m.length).trim()`. -/
def payloadAfter (m line : List Char) : List Char :=
  match subIdx m line with
  | some i => trimJs (line.drop (i + m.length))
  | none => []

/-- The `__CLAUDE_MESSAGE__` branch: parse the payload, read `.content`
(an access on `null` throws); the `catch` yields no event. -/
def decClaudeMessage (line : List Char) : Option Event :=
  match parseJson (payloadAfter mClaudeMessage line) with
  | none => none
  | some j =>
    match jsGet j keyContent with
    | none => none
    | some c => some (.claudeMessage c)

/-- The `__TOOL_USE__` branch. -/
def decToolUse (line : List Char) : Option Event :=
  match parseJson (payloadAfter mToolUse line) with
  | none => none
  | some j =>
    match jsGet j keyName, jsGet j keyInput with
    | some n, some i => some (.toolUse n i)
    | _, _ => none

/-- The `__CLAUDE_FIX__` branch. -/
def decClaudeFix (line : List Char) : Option Event :=
  match parseJson (payloadAfter mClaudeFix line) with
  | none => none
  | some j =>
    match jsGet j keyContent, jsGet j keyAttempt with
    | some c, some a => some (.healingMessage c a)
    | _, _ => none

/-- The `__TOOL_FIX__` branch. -/
def decToolFix (line : List Char) : Option Event :=
  match parseJson (payloadAfter mToolFix line) with
  | none => none
  | some j =>
    match jsGet j keyName, jsGet j keyInput, jsGet j keyAttempt with
    | some n, some i, some a => some (.healingTool n i a)
    | _, _, _ => none

/-- The `__HEAL_FAILED__` branch: unlike the other JSON branches, its
`catch` still writes a `failed` status event without detail fields. -/
def decHealFailed (line : List Char) : Option Event :=
  match parseJson (payloadAfter mHealFailed line) with
  | none => some .healingStatusFailedPlain
  | some j =>
    match jsGet j keyError, jsGet j keyAttempts with
    | some e, some a => some (.healingStatusFailed e a)
    | _, _ => some .healingStatusFailedPlain

/-- The generic-progress fallback with its internal-log filter
(`output` in the source is the trimmed line). -/
def decProgress (line : List Char) : Option Event :=
  if !(trimJs line).isEmpty && !containsSub (trimJs line) lClaudeTag &&
     !containsSub (trimJs line) lToolTag && !containsSub (trimJs line) lDunder then
    some (.progress (trimJs line))
  else none

/-- The per-line classifier of the stdout data handler
(`route.ts` lines 51–191): skip blank lines, then the marker `if`/`else`
chain in source order, else the generic-progress branch with its
internal-log filter.  A `catch` around a failing `JSON.parse` (or a
property access on a parsed `null`) yields no event, except in the
`__HEAL_FAILED__` branch whose `catch` writes a plain `failed` status. -/
def classifyLine (line : List Char) : Option Event :=
  if trimJs line = [] then none
  else if containsSub line mClaudeMessage then decClaudeMessage line
  else if containsSub line mToolUse then decToolUse line
  else if containsSub line mClaudeFix then decClaudeFix line
  else if containsSub line mToolFix then decToolFix line
  else if containsSub line mHealingStart then some .healingStatusStarting
  else if containsSub line mHealingEnd then some .healingStatusEnded
  else if containsSub line mHealSuccess then some .healingStatusSuccess
  else if containsSub line mHealFailed then decHealFailed line
  else if containsSub line mModComplete then some .modificationComplete
  else decProgress line

/-- One `data` callback of the stdout handler: append the chunk to the
partial-line buffer, split on newlines, re-buffer the trailing fragment,
classify each complete line in order.  Returns (new buffer, events). -/
def feedChunk (buf chunk : List Char) : List Char × List Event :=
  ((splitNl (buf ++ chunk)).2, ((splitNl (buf ++ chunk)).1).filterMap classifyLine)

/-- Feeding a sequence of chunks, threading the partial-line buffer. -/
def feedMany (buf : List Char) : List (List Char) → List Char × List Event
  | [] => (buf, [])
  | c :: cs =>
    ((feedMany (feedChunk buf c).1 cs).1,
     (feedChunk buf c).2 ++ (feedMany (feedChunk buf c).1 cs).2)

/-- The stderr data handler (`route.ts` lines 195–208): forward the chunk
as an `error` event with the trimmed text iff it contains `"Error"` or
`"Failed"`; otherwise drop it.  No buffering, no marker decoding. -/
def handleStderr (chunk : List Char) : Option Event :=
  if containsSub chunk errTok || containsSub chunk failTok then
    some (.errorEv (trimJs chunk))
  else none

/-! ### Stream forwarder -/

/-- A chunk arriving from the subprocess, on stdout or stderr. -/
inductive StreamChunk where
  | out (s : List Char)
  | err (s : List Char)

/-- One unit observed by the sink: a written event, the literal
`data: [DONE]` sentinel, or the `writer.close()` call. -/
inductive SinkItem where
  | ev (e : Event)
  | doneSentinel
  | closeSink

/-- Process one arriving chunk (stdout through the demultiplexer,
stderr through `handleStderr`). -/
def forwardStep (buf : List Char) : StreamChunk → List Char × List SinkItem
  | .out s => ((feedChunk buf s).1, ((feedChunk buf s).2).map SinkItem.ev)
  | .err s =>
    (buf,
     match handleStderr s with
     | some e => [SinkItem.ev e]
     | none => [])

/-- Process a sequence of arriving chunks in arrival order. -/
def forwardAll (buf : List Char) : List StreamChunk → List Char × List SinkItem
  | [] => (buf, [])
  | c :: cs =>
    ((forwardAll (forwardStep buf c).1 cs).1,
     (forwardStep buf c).2 ++ (forwardAll (forwardStep buf c).1 cs).2)

/-- How the awaited exit promise settles: subprocess exit with a code
(resolved on 0, rejected with an `Error` message otherwise), or a
spawn-level `error` event (rejected with its message).  These rejections
are the only exceptions the outer `try`/`catch`/`finally` receives: the
stdout/stderr data handlers are detached `async` callbacks, so an
exception raised inside them while forwarding becomes an unhandled
rejection that never reaches this `try` block (see `forwardStepFaulty`). -/
inductive ExitOutcome where
  | exited (code : Int)
  | spawnErr (msg : List Char)
deriving DecidableEq

/-- The message of the `Error` built when the process exits nonzero. -/
def exitCodeMsg (c : Int) : List Char :=
  "Process exited with code ".data ++ (toString c).data

/-- The terminal items of the try/catch/finally: `complete` + `[DONE]` on
exit code 0; an `error` event + `[DONE]` in the `catch` when the awaited
exit promise rejects (nonzero exit or spawn error); the `finally` closes
the sink in every case. -/
def tailItems : ExitOutcome → List SinkItem
  | .exited c =>
    if c = 0 then [.ev .complete, .doneSentinel, .closeSink]
    else [.ev (.errorEv (exitCodeMsg c)), .doneSentinel, .closeSink]
  | .spawnErr m => [.ev (.errorEv m), .doneSentinel, .closeSink]

/-- Everything the sink observes for one session: the forwarded items for
the chunks that were processed, then the terminal items. -/
def forwarderTrace (chunks : List StreamChunk) (outcome : ExitOutcome) : List SinkItem :=
  (forwardAll [] chunks).2 ++ tailItems outcome

/-- One data callback in which an exception is raised while forwarding,
after `k` of its writes have succeeded.  The handler's buffer update
(`buffer = lines.pop()`) runs before its first `await`, so the new buffer
is that of the unfaulted step, while only a prefix of the step's items
reaches the sink: the sequential awaited writes after the throw are
skipped.  The handler is a detached `async` callback, so the exception
becomes an unhandled promise rejection: it is NOT delivered to the outer
`try`/`catch`/`finally` and produces no `error` event of its own. -/
def forwardStepFaulty (buf : List Char) (c : StreamChunk) (k : Nat) :
    List Char × List SinkItem :=
  ((forwardStep buf c).1, ((forwardStep buf c).2).take k)

/-- A session in which one data callback (for chunk `c`, after `k`
successful writes) raises while forwarding: the chunks of `pre` and
`post` are handled normally, the faulting callback contributes only its
written prefix, and — the rejection having bypassed the try/catch — the
terminal items are still determined by the exit outcome alone.  (The
unhandled rejection is taken not to bring the server process down, as the
surrounding route handler installs no handler of its own.) -/
def forwarderTraceFaulty (pre : List StreamChunk) (c : StreamChunk) (k : Nat)
    (post : List StreamChunk) (outcome : ExitOutcome) : List SinkItem :=
  ((forwardAll [] pre).2 ++
    (forwardStepFaulty (forwardAll [] pre).1 c k).2 ++
      (forwardAll (forwardStepFaulty (forwardAll [] pre).1 c k).1 post).2) ++
    tailItems outcome

def isDone : SinkItem → Bool
  | .doneSentinel => true
  | _ => false

def isClose : SinkItem → Bool
  | .closeSink => true
  | _ => false

def isCompleteEv : SinkItem → Bool
  | .ev .complete => true
  | _ => false

def isErrorEvB : SinkItem → Bool
  | .ev (.errorEv _) => true
  | _ => false

/-! ### Build-repair loop (`verifyAndFixBuild` of the embedded modification
script, `scripts/modify-app.ts` lines 145–230) -/

/-- Result of one `npm run build` via `runCommand`: exit-code success flag
and the combined captured output (the diagnostic text). -/
structure BuildResult where
  success : Bool
  output : List Char

/-- One message of the corrective-generation capability's stream
(`query(...)`), as re-emitted by the loop. -/
inductive RawMsg where
  | text (content : List Char)
  | toolUse (name : List Char) (input : Json)

/-- The observable behaviour of one corrective-generation invocation: the
messages it yields before finishing, and — when it raises instead of
completing — the exception's message (`none` = completed normally). -/
structure RepairBehavior where
  msgs : List RawMsg
  raised : Option (List Char)

/-- Marker lines printed by the loop to stdout (the plain `console.log`
narration lines carry no marker and are not tracked here; they surface
downstream only as generic progress noise). -/
inductive LoopEvent where
  | healingStart
  | healingEnd
  | claudeFix (content : List Char) (attempt : Nat)
  | toolFix (name : List Char) (input : Json) (attempt : Nat)
  | healFailed (error : List Char) (attempts : Nat)

/-- Re-emission of a repair-stream message tagged with the current attempt
number (the `__CLAUDE_FIX__` / `__TOOL_FIX__` prints inside the loop). -/
def tagMsg (attempt : Nat) : RawMsg → LoopEvent
  | .text c => .claudeFix c attempt
  | .toolUse n i => .toolFix n i attempt

/-- Everything observable from one run of `verifyAndFixBuild`: the boolean
it returns, how many builds and repairs it performed, the diagnostic text
passed to each repair invocation (in order), the marker lines printed to
stdout, and the `console.error` lines printed by the repair `catch`. -/
structure RunResult where
  buildSuccess : Bool
  buildCalls : Nat
  repairCalls : Nat
  repairDiags : List (List Char)
  events : List LoopEvent
  errLogs : List (List Char)

/-- The fixed content of the initial `__CLAUDE_FIX__` message. -/
def analyzingMsg : List Char := "Analyzing build errors and creating fixes...".data

/-- The fixed `error` field of the `__HEAL_FAILED__` payload. -/
def healFailedMsg : List Char :=
  "Build verification failed after multiple fix attempts".data

/-- The `console.error` tag of the repair `catch` block. -/
def fixFailedTag : List Char := "Build fixing failed: ".data

/-- Body of the `for (let attempt = 1; attempt <= maxAttempts; attempt++)`
loop.  `fuel` bounds the remaining iterations structurally; `vfbRun`
supplies `fuel = maxAttempts`, which is enough since each iteration
increments `attempt` and the loop exits once `attempt > maxAttempts`.

On build success: return `true`.
On failure with `attempt < maxAttempts`: print `__HEALING_START__`, the
initial `__CLAUDE_FIX__`, the repair stream tagged with the attempt
number, then `__HEALING_END__` (also printed by the `catch` when the
invocation raises, whose `console.error` goes to stderr), and continue.
On failure with `attempt = maxAttempts`: print `__HEAL_FAILED__` with the
fixed error text and `attempts: maxAttempts`, and return `false`. -/
def vfbGo (bc : Nat → BuildResult) (rp : Nat → List Char → RepairBehavior)
    (maxAttempts : Nat) : Nat → Nat → RunResult
  | _, 0 => ⟨false, 0, 0, [], [], []⟩
  | attempt, fuel + 1 =>
    if attempt ≤ maxAttempts then
      let br := bc attempt
      if br.success then
        ⟨true, 1, 0, [], [], []⟩
      else if attempt < maxAttempts then
        let rb := rp attempt br.output
        let rest := vfbGo bc rp maxAttempts (attempt + 1) fuel
        ⟨rest.buildSuccess, rest.buildCalls + 1, rest.repairCalls + 1,
         br.output :: rest.repairDiags,
         .healingStart :: .claudeFix analyzingMsg attempt ::
           (rb.msgs.map (tagMsg attempt) ++ .healingEnd :: rest.events),
         (match rb.raised with
          | some m => [fixFailedTag ++ m]
          | none => []) ++ rest.errLogs⟩
      else
        ⟨false, 1, 0, [], [.healFailed healFailedMsg maxAttempts], []⟩
    else ⟨false, 0, 0, [], [], []⟩

/-- Run of `verifyAndFixBuild` with build check `bc` and corrective capability
`rp`, starting at attempt 1.  The source fixes `maxAttempts = 3`
(`vfbMaxAttempts`); the spec's contract takes it as a parameter. -/
def vfbRun (bc : Nat → BuildResult) (rp : Nat → List Char → RepairBehavior)
    (maxAttempts : Nat) : RunResult :=
  vfbGo bc rp maxAttempts 1 maxAttempts

/-- The constant `maxAttempts` of the source. -/
def vfbMaxAttempts : Nat := 3

def isHealingEndB : LoopEvent → Bool
  | .healingEnd => true
  | _ => false

def isHealFailedB : LoopEvent → Bool
  | .healFailed _ _ => true
  | _ => false

/-- The components of a run that are observable on stdout and in the
return value (everything except the stderr logs of the repair `catch`). -/
def obsOf (r : RunResult) :
    Bool × Nat × Nat × List (List Char) × List LoopEvent :=
  (r.buildSuccess, r.buildCalls, r.repairCalls, r.repairDiags, r.events)

/-! ### Concrete instances used by witnesses and counterexamples -/

/-- A build check that fails on every call with diagnostic `boom`. -/
def bcBoom : Nat → BuildResult := fun _ => ⟨false, "boom".data⟩

/-- A build check that fails on the first call and succeeds afterwards. -/
def bcFailOnce : Nat → BuildResult :=
  fun n => if n = 1 then ⟨false, "first build broke".data⟩ else ⟨true, []⟩

/-- A corrective capability that yields no messages and completes. -/
def rpSilent : Nat → List Char → RepairBehavior := fun _ _ => ⟨[], none⟩

/-- A corrective capability that yields no messages and raises. -/
def rpRaising : Nat → List Char → RepairBehavior :=
  fun _ _ => ⟨[], some "query exploded".data⟩

/-- No marker of `ms` occurs in `line` (the line carries a single marker). -/
def noneOfMarkers (line : List Char) (ms : List (List Char)) : Prop :=
  ∀ m ∈ ms, containsSub line m = false

/-- Newline-terminated concatenation of a list of lines. -/
def linesJoin (lines : List (List Char)) : List Char :=
  (lines.map (fun l => l ++ ['\n'])).flatten

/-! ## Lemmas about the line splitter -/

lemma splitNl_append (a b : List Char) :
    splitNl (a ++ b) =
      ((splitNl a).1 ++ (splitNl ((splitNl a).2 ++ b)).1,
       (splitNl ((splitNl a).2 ++ b)).2) := by
  induction a with
  | nil => simp [splitNl]
  | cons c a ih =>
    by_cases hc : c = '\n'
    · subst hc
      rcases hA : splitNl a with ⟨ls, t⟩
      have hab : splitNl (a ++ b) =
          (ls ++ (splitNl (t ++ b)).1, (splitNl (t ++ b)).2) := by
        rw [ih, hA]
      simp [splitNl, hab, hA]
    · rcases hA : splitNl a with ⟨ls, t⟩
      have hab : splitNl (a ++ b) =
          (ls ++ (splitNl (t ++ b)).1, (splitNl (t ++ b)).2) := by
        rw [ih, hA]
      cases ls with
      | nil =>
        rcases hQ : splitNl (t ++ b) with ⟨qs, qt⟩
        have hab2 : splitNl (a ++ b) = (qs, qt) := by rw [hab, hQ]; simp
        cases qs with
        | nil => simp [List.cons_append, splitNl, hc, hab2, hA, hQ]
        | cons q qs' => simp [List.cons_append, splitNl, hc, hab2, hA, hQ]
      | cons l ls' =>
        have hab2 : splitNl (a ++ b) =
            (l :: (ls' ++ (splitNl (t ++ b)).1), (splitNl (t ++ b)).2) := by
          rw [hab]; simp
        simp [List.cons_append, splitNl, hc, hab2, hA]

lemma splitNl_snd_no_nl (s : List Char) : '\n' ∉ (splitNl s).2 := by
  induction s with
  | nil => simp [splitNl]
  | cons c rest ih =>
    by_cases hc : c = '\n'
    · subst hc; simpa [splitNl] using ih
    · rcases hR : splitNl rest with ⟨ls, t⟩
      have ih' : '\n' ∉ t := by rw [hR] at ih; exact ih
      cases ls with
      | nil =>
        simp only [splitNl, hc, if_false, hR, List.mem_cons]
        push_neg
        exact ⟨fun h => hc h.symm, ih'⟩
      | cons l ls' =>
        simpa [splitNl, hc, hR] using ih'

lemma splitNl_of_no_nl (s : List Char) (h : '\n' ∉ s) : splitNl s = ([], s) := by
  induction s with
  | nil => simp [splitNl]
  | cons c rest ih =>
    have hc : c ≠ '\n' := by rintro rfl; exact h (List.mem_cons_self _ _)
    have hr : '\n' ∉ rest := fun hm => h (List.mem_cons_of_mem _ hm)
    simp [splitNl, hc, ih hr]

lemma feedChunk_fst_no_nl (buf chunk : List Char) :
    '\n' ∉ (feedChunk buf chunk).1 := by
  simpa [feedChunk] using splitNl_snd_no_nl (buf ++ chunk)

/-- Chunk composition: feeding `a` then `b` equals feeding `a ++ b`. -/
lemma feedChunk_append (buf a b : List Char) :
    feedChunk buf (a ++ b) =
      ((feedChunk (feedChunk buf a).1 b).1,
       (feedChunk buf a).2 ++ (feedChunk (feedChunk buf a).1 b).2) := by
  have h := splitNl_append (buf ++ a) b
  simp only [feedChunk, ← List.append_assoc, h, List.filterMap_append]

/-- Folding the demultiplexer over any chunk sequence equals one feed of
the concatenation, provided the starting buffer holds no newline. -/
lemma feedMany_eq_feedChunk (chunks : List (List Char)) :
    ∀ buf : List Char, '\n' ∉ buf →
      feedMany buf chunks = feedChunk buf chunks.flatten := by
  induction chunks with
  | nil =>
    intro buf hb
    simp [feedMany, feedChunk, splitNl_of_no_nl buf hb]
  | cons c cs ih =>
    intro buf hb
    have h1 := ih (feedChunk buf c).1 (feedChunk_fst_no_nl buf c)
    simp only [feedMany, h1, List.flatten, feedChunk_append buf c cs.flatten]

lemma flatten_map_singleton (l : List Char) :
    (l.map (fun c => [c])).flatten = l := by
  induction l with
  | nil => simp
  | cons c cs ih => simp [ih]

/-! ## Claims C1, C8, C9 -/

/-- Claim C1: for every input text and every way of splitting it into
chunks, feeding the chunks through the line demultiplexer yields the same
buffer state and the same ordered event sequence as feeding the whole text
as one chunk; in particular feeding one character at a time is equivalent
to feeding one chunk. -/
theorem c1_chunk_boundary_independence (text : List Char)
    (chunks : List (List Char)) (h : chunks.flatten = text) :
    feedMany [] chunks = feedChunk [] text ∧
    feedMany [] (text.map (fun c => [c])) = feedChunk [] text := by
  constructor
  · rw [← h]
    exact feedMany_eq_feedChunk chunks [] (by simp)
  · have h2 := feedMany_eq_feedChunk (text.map (fun c => [c])) [] (by simp)
    rwa [flatten_map_singleton text] at h2

theorem c1_witness :
    feedMany [] ["ab\nc".data, "d\ne".data] = feedChunk [] "ab\ncd\ne".data ∧
    feedMany [] ("ab\ncd\ne".data.map (fun c => [c])) =
      feedChunk [] "ab\ncd\ne".data :=
  c1_chunk_boundary_independence "ab\ncd\ne".data ["ab\nc".data, "d\ne".data]
    (by decide)

lemma forwardAll_out (chunks : List (List Char)) : ∀ buf : List Char,
    forwardAll buf (chunks.map StreamChunk.out) =
      ((feedMany buf chunks).1, ((feedMany buf chunks).2).map SinkItem.ev) := by
  induction chunks with
  | nil => intro buf; simp [forwardAll, feedMany]
  | cons c cs ih =>
    intro buf
    simp [forwardAll, feedMany, forwardStep, ih]

/-- Claim C8: the trailing fragment of a non-newline-terminated input is
never classified and never produces an event: the produced events are
exactly the classifications of the complete lines, the fragment is what
remains in the partial-line buffer across all chunk arrivals, and at
stream end the forwarder appends only the terminal items — the buffer is
discarded unflushed. -/
theorem c8_trailing_fragment_dropped (chunks : List (List Char)) :
    (feedMany [] chunks).1 = (splitNl chunks.flatten).2 ∧
    (feedMany [] chunks).2 =
      ((splitNl chunks.flatten).1).filterMap classifyLine ∧
    ∀ outcome : ExitOutcome,
      forwarderTrace (chunks.map StreamChunk.out) outcome =
        (((splitNl chunks.flatten).1).filterMap classifyLine).map SinkItem.ev
          ++ tailItems outcome := by
  have h := feedMany_eq_feedChunk chunks [] (by simp)
  have h1 : feedMany [] chunks =
      ((splitNl chunks.flatten).2,
       ((splitNl chunks.flatten).1).filterMap classifyLine) := by
    rw [h]; simp [feedChunk]
  refine ⟨by rw [h1], by rw [h1], ?_⟩
  intro outcome
  rw [forwarderTrace, forwardAll_out chunks [], h1]

lemma trimJs_eq_nil_iff (s : List Char) :
    trimJs s = [] ↔ (∀ c ∈ s, isJsTrimWs c) := by
  unfold trimJs
  rw [List.reverse_eq_nil_iff, List.dropWhile_eq_nil_iff]
  simp only [List.mem_reverse]
  constructor
  · intro h c hc
    by_cases hd : c ∈ s.dropWhile isJsTrimWs
    · exact h c hd
    · have hs := List.takeWhile_append_dropWhile (p := isJsTrimWs) (l := s)
      rw [← hs] at hc
      rcases List.mem_append.mp hc with h1 | h1
      · exact List.mem_takeWhile_imp h1
      · exact absurd h1 hd
  · intro h c hc
    exact h c ((List.dropWhile_sublist isJsTrimWs).subset hc)

/-- Claim C9: a complete line that is empty or consists only of whitespace
is silently skipped by the demultiplexer: it produces no event at all. -/
theorem c9_blank_line_no_event (line : List Char)
    (h : ∀ c ∈ line, isJsTrimWs c) : classifyLine line = none := by
  unfold classifyLine
  rw [if_pos ((trimJs_eq_nil_iff line).mpr h)]

theorem c9_witness : classifyLine " \t ".data = none :=
  c9_blank_line_no_event " \t ".data (by decide)

/-! ## Claim C5: terminal signal, sentinel and close -/

lemma decClaudeMessage_ne_complete (line : List Char) :
    decClaudeMessage line ≠ some Event.complete := by
  unfold decClaudeMessage
  repeat' split
  all_goals simp

lemma decToolUse_ne_complete (line : List Char) :
    decToolUse line ≠ some Event.complete := by
  unfold decToolUse
  repeat' split
  all_goals simp

lemma decClaudeFix_ne_complete (line : List Char) :
    decClaudeFix line ≠ some Event.complete := by
  unfold decClaudeFix
  repeat' split
  all_goals simp

lemma decToolFix_ne_complete (line : List Char) :
    decToolFix line ≠ some Event.complete := by
  unfold decToolFix
  repeat' split
  all_goals simp

lemma decHealFailed_ne_complete (line : List Char) :
    decHealFailed line ≠ some Event.complete := by
  unfold decHealFailed
  repeat' split
  all_goals simp

lemma decProgress_ne_complete (line : List Char) :
    decProgress line ≠ some Event.complete := by
  unfold decProgress
  split
  all_goals simp

lemma classifyLine_ne_complete (line : List Char) (e : Event)
    (h : classifyLine line = some e) : e ≠ Event.complete := by
  intro he
  subst he
  unfold classifyLine at h
  repeat' split at h
  · exact Option.noConfusion h
  · exact decClaudeMessage_ne_complete line h
  · exact decToolUse_ne_complete line h
  · exact decClaudeFix_ne_complete line h
  · exact decToolFix_ne_complete line h
  · simp at h
  · simp at h
  · simp at h
  · exact decHealFailed_ne_complete line h
  · simp at h
  · exact decProgress_ne_complete line h

lemma forwardStep_items_clean (buf : List Char) (c : StreamChunk) :
    ∀ it ∈ (forwardStep buf c).2,
      isDone it = false ∧ isClose it = false ∧ isCompleteEv it = false := by
  intro it h
  cases c with
  | out s =>
    simp only [forwardStep, List.mem_map] at h
    rcases h with ⟨e, he, rfl⟩
    have he2 : e ∈ ((splitNl (buf ++ s)).1).filterMap classifyLine := by
      simpa [feedChunk] using he
    rcases List.mem_filterMap.mp he2 with ⟨l, _, hcl⟩
    have hne := classifyLine_ne_complete l e hcl
    refine ⟨rfl, rfl, ?_⟩
    cases e <;> simp [isCompleteEv] at hne ⊢
  | err s =>
    cases hs : handleStderr s with
    | none => simp [forwardStep, hs] at h
    | some e =>
      simp only [forwardStep, hs, List.mem_singleton] at h
      subst h
      unfold handleStderr at hs
      split at hs
      · cases hs; exact ⟨rfl, rfl, rfl⟩
      · cases hs

lemma forwardAll_items_clean (chunks : List StreamChunk) : ∀ buf : List Char,
    ∀ it ∈ (forwardAll buf chunks).2,
      isDone it = false ∧ isClose it = false ∧ isCompleteEv it = false := by
  induction chunks with
  | nil => intro buf it h; simp [forwardAll] at h
  | cons c cs ih =>
    intro buf it h
    simp only [forwardAll, List.mem_append] at h
    rcases h with h | h
    · exact forwardStep_items_clean buf c it h
    · exact ih _ it h

lemma getLast?_append_right {α : Type} (xs ys : List α) (a : α)
    (h : ys.getLast? = some a) : (xs ++ ys).getLast? = some a := by
  induction xs with
  | nil => simpa using h
  | cons x xs ih =>
    have hne : xs ++ ys ≠ [] := by
      intro hnil
      rcases List.append_eq_nil.mp hnil with ⟨rfl, rfl⟩
      simp at h
    rcases List.exists_cons_of_ne_nil hne with ⟨b, l, hbl⟩
    rw [List.cons_append, hbl, List.getLast?_cons_cons, ← hbl]
    exact ih

lemma tailItems_shape (outcome : ExitOutcome) :
    ∃ t : Event,
      tailItems outcome =
        [SinkItem.ev t, SinkItem.doneSentinel, SinkItem.closeSink] ∧
      (outcome = ExitOutcome.exited 0 → t = Event.complete) ∧
      (outcome ≠ ExitOutcome.exited 0 → ∃ m, t = Event.errorEv m) := by
  cases outcome with
  | exited c =>
    by_cases h0 : c = 0
    · subst h0
      exact ⟨Event.complete, by simp [tailItems], fun _ => rfl,
        fun hn => absurd rfl hn⟩
    · refine ⟨Event.errorEv (exitCodeMsg c), by simp [tailItems, h0], ?_, ?_⟩
      · intro he
        exact absurd (ExitOutcome.exited.inj he) h0
      · intro _
        exact ⟨exitCodeMsg c, rfl⟩
  | spawnErr m =>
    refine ⟨Event.errorEv m, by simp [tailItems], ?_, fun _ => ⟨m, rfl⟩⟩
    intro he
    exact ExitOutcome.noConfusion he

/-- A clean prefix of forwarded items followed by the terminal items has
exactly one sentinel, one close (last), and a `complete` iff exit 0. -/
lemma trace_tail_props (pre : List SinkItem) (outcome : ExitOutcome)
    (hclean : ∀ it ∈ pre,
      isDone it = false ∧ isClose it = false ∧ isCompleteEv it = false) :
    (pre ++ tailItems outcome).countP isDone = 1 ∧
    (pre ++ tailItems outcome).countP isClose = 1 ∧
    (pre ++ tailItems outcome).getLast? = some SinkItem.closeSink ∧
    (pre ++ tailItems outcome).countP isCompleteEv =
      (if outcome = ExitOutcome.exited 0 then 1 else 0) ∧
    ∃ t : Event,
      pre ++ tailItems outcome =
        pre ++ [SinkItem.ev t, SinkItem.doneSentinel, SinkItem.closeSink] ∧
      (outcome = ExitOutcome.exited 0 → t = Event.complete) ∧
      (outcome ≠ ExitOutcome.exited 0 → ∃ m, t = Event.errorEv m) := by
  rcases tailItems_shape outcome with ⟨t, htail, hnorm, habn⟩
  have hpre0 : ∀ p : SinkItem → Bool,
      (∀ it ∈ pre, p it = false) → pre.countP p = 0 := by
    intro p hp
    exact List.countP_eq_zero.mpr (fun a ha => by simp [hp a ha])
  have hdone0 := hpre0 isDone (fun it hit => (hclean it hit).1)
  have hclose0 := hpre0 isClose (fun it hit => (hclean it hit).2.1)
  have hcompl0 := hpre0 isCompleteEv (fun it hit => (hclean it hit).2.2)
  refine ⟨?_, ?_, ?_, ?_, t, ?_, hnorm, habn⟩
  · rw [List.countP_append, hdone0, htail]
    simp [List.countP_cons, isDone]
  · rw [List.countP_append, hclose0, htail]
    simp [List.countP_cons, isClose]
  · rw [htail]
    exact getLast?_append_right _ _ _ (by simp)
  · rw [List.countP_append, hcompl0, htail]
    by_cases h0 : outcome = ExitOutcome.exited 0
    · rw [if_pos h0, hnorm h0]
      simp [List.countP_cons, isCompleteEv]
    · rcases habn h0 with ⟨m, rfl⟩
      rw [if_neg h0]
      simp [List.countP_cons, isCompleteEv]
  · rw [htail]

/-- Claim C5 (amended): on the execution paths governed by the
forwarder's try/catch/finally — normal subprocess exit (code 0),
abnormal exit (nonzero status) and spawn error — the subscriber receives
exactly one terminal signal (`complete` on the normal path, an `error`
event otherwise) followed by exactly one end-of-stream sentinel, and the
sink is closed exactly once.  An exception raised while forwarding,
however, occurs in a detached async data handler and never reaches that
try/catch/finally: it truncates the faulting callback's writes, produces
no error event of its own, and the stream still terminates exactly once
(one sentinel, one final close) according to the subprocess exit path
alone — in particular with a `complete` terminal signal when the process
exits 0. -/
theorem c5_terminal_signal_once (chunks pre post : List StreamChunk)
    (c : StreamChunk) (k : Nat) (outcome : ExitOutcome) :
    ((forwarderTrace chunks outcome).countP isDone = 1 ∧
     (forwarderTrace chunks outcome).countP isClose = 1 ∧
     (forwarderTrace chunks outcome).getLast? = some SinkItem.closeSink ∧
     (forwarderTrace chunks outcome).countP isCompleteEv =
       (if outcome = ExitOutcome.exited 0 then 1 else 0) ∧
     ∃ t : Event,
       forwarderTrace chunks outcome =
         (forwardAll [] chunks).2 ++
           [SinkItem.ev t, SinkItem.doneSentinel, SinkItem.closeSink] ∧
       (outcome = ExitOutcome.exited 0 → t = Event.complete) ∧
       (outcome ≠ ExitOutcome.exited 0 → ∃ m, t = Event.errorEv m)) ∧
    ((forwarderTraceFaulty pre c k post outcome).countP isDone = 1 ∧
     (forwarderTraceFaulty pre c k post outcome).countP isClose = 1 ∧
     (forwarderTraceFaulty pre c k post outcome).getLast? =
       some SinkItem.closeSink ∧
     (forwarderTraceFaulty pre c k post outcome).countP isCompleteEv =
       (if outcome = ExitOutcome.exited 0 then 1 else 0)) := by
  constructor
  · exact trace_tail_props (forwardAll [] chunks).2 outcome
      (forwardAll_items_clean chunks [])
  · have hclean : ∀ it ∈ (forwardAll [] pre).2 ++
        (forwardStepFaulty (forwardAll [] pre).1 c k).2 ++
          (forwardAll (forwardStepFaulty (forwardAll [] pre).1 c k).1 post).2,
        isDone it = false ∧ isClose it = false ∧ isCompleteEv it = false := by
      intro it hit
      rcases List.mem_append.mp hit with hit1 | hit3
      · rcases List.mem_append.mp hit1 with hit1 | hit2
        · exact forwardAll_items_clean pre [] it hit1
        · have : it ∈ (forwardStep (forwardAll [] pre).1 c).2 :=
            List.take_subset _ _ hit2
          exact forwardStep_items_clean _ c it this
      · exact forwardAll_items_clean post _ it hit3
    have h := trace_tail_props _ outcome hclean
    exact ⟨h.1, h.2.1, h.2.2.1, h.2.2.2.1⟩

/-- Counterexample to claim C5 as stated: on the
exception-raised-while-forwarding path — here the data callback for the
stdout chunk `x` + newline raises before any of its writes succeeds, and
the subprocess then exits 0 — the subscriber's trace is `complete`,
`[DONE]`, close, with no error event at all: the exception bypasses the
catch block, so the terminal signal on this path is a `complete` event,
not the `error` event the claim requires. -/
theorem c5_counterexample :
    forwarderTraceFaulty [] (StreamChunk.out "x\n".data) 0 []
        (ExitOutcome.exited 0) =
      [SinkItem.ev Event.complete, SinkItem.doneSentinel,
       SinkItem.closeSink] ∧
    (forwarderTraceFaulty [] (StreamChunk.out "x\n".data) 0 []
        (ExitOutcome.exited 0)).countP isErrorEvB = 0 ∧
    (forwardStep [] (StreamChunk.out "x\n".data)).2 =
      [SinkItem.ev (Event.progress "x".data)] :=
  ⟨rfl, rfl, rfl⟩

/-! ## Claim C10: stderr filtering -/

/-- Claim C10: a stderr chunk is forwarded as an `error` event carrying the
chunk's trimmed text iff its text contains `"Error"` or `"Failed"`; all
other stderr chunks are dropped; stderr is processed statelessly — the
demultiplexer's partial-line buffer is untouched and the produced items do
not depend on it. -/
theorem c10_stderr_substring_filter (chunk : List Char) :
    (∀ e : Event,
      handleStderr chunk = some e ↔
        ((containsSub chunk errTok || containsSub chunk failTok) = true ∧
         e = Event.errorEv (trimJs chunk))) ∧
    (handleStderr chunk = none ↔
      (containsSub chunk errTok || containsSub chunk failTok) = false) ∧
    (∀ buf : List Char,
      (forwardStep buf (StreamChunk.err chunk)).1 = buf ∧
      (forwardStep buf (StreamChunk.err chunk)).2 =
        (forwardStep [] (StreamChunk.err chunk)).2) := by
  refine ⟨?_, ?_, ?_⟩
  · intro e
    unfold handleStderr
    by_cases hc : (containsSub chunk errTok || containsSub chunk failTok) = true
    · rw [if_pos hc]
      constructor
      · intro h
        exact ⟨hc, (Option.some.inj h).symm⟩
      · rintro ⟨-, rfl⟩
        rfl
    · rw [if_neg hc]
      constructor
      · intro h
        exact Option.noConfusion h
      · rintro ⟨h, -⟩
        exact absurd h hc
  · unfold handleStderr
    by_cases hc : (containsSub chunk errTok || containsSub chunk failTok) = true
    · rw [if_pos hc]
      constructor
      · intro h
        exact Option.noConfusion h
      · intro h
        rw [hc] at h
        exact Bool.noConfusion h
    · rw [if_neg hc]
      simp only [true_iff]
      exact Bool.not_eq_true _ ▸ Bool.eq_false_iff.mpr (fun h => hc h)
  · intro buf
    exact ⟨rfl, rfl⟩

/-! ## Claim C2: invalid marker payloads -/

lemma hasPfx_append_self (m p : List Char) : hasPfx m (m ++ p) = true := by
  induction m with
  | nil => rfl
  | cons c m ih => simp [hasPfx, ih]

lemma subIdx_append_self (m p : List Char) (hm : m ≠ []) :
    subIdx m (m ++ p) = some 0 := by
  cases m with
  | nil => exact absurd rfl hm
  | cons c m' =>
    have h := hasPfx_append_self (c :: m') p
    simp only [List.cons_append] at h ⊢
    simp [subIdx, h, List.append_eq]

lemma containsSub_append_self (m p : List Char) (hm : m ≠ []) :
    containsSub (m ++ p) m = true := by
  simp [containsSub, subIdx_append_self m p hm]

lemma payloadAfter_append_self (m p : List Char) (hm : m ≠ []) :
    payloadAfter m (m ++ p) = trimJs p := by
  simp [payloadAfter, subIdx_append_self m p hm]

lemma trim_append_ne_nil (m p : List Char) (hm : m.all isJsTrimWs = false) :
    trimJs (m ++ p) ≠ [] := by
  intro h
  have hall := (trimJs_eq_nil_iff _).mp h
  have hmall : m.all isJsTrimWs = true :=
    List.all_eq_true.mpr (fun c hc => hall c (List.mem_append_left _ hc))
  rw [hmall] at hm
  exact Bool.noConfusion hm

lemma splitNl_snoc_nl (l : List Char) (hl : '\n' ∉ l) :
    splitNl (l ++ ['\n']) = ([l], []) := by
  induction l with
  | nil => simp [splitNl]
  | cons c cs ih =>
    have hc : c ≠ '\n' := by rintro rfl; exact hl (List.mem_cons_self _ _)
    have hcs : '\n' ∉ cs := fun hm => hl (List.mem_cons_of_mem _ hm)
    simp [splitNl, hc, ih hcs]

lemma splitNl_linesJoin (lines : List (List Char))
    (h : ∀ l ∈ lines, ('\n' : Char) ∉ l) :
    splitNl (linesJoin lines) = (lines, []) := by
  induction lines with
  | nil => simp [linesJoin, splitNl]
  | cons l ls ih =>
    have h1 : splitNl (l ++ ['\n']) = ([l], []) :=
      splitNl_snoc_nl l (h l (List.mem_cons_self _ _))
    have h2 := ih (fun x hx => h x (List.mem_cons_of_mem _ hx))
    simp only [linesJoin] at h2 ⊢
    simp only [List.map_cons, List.flatten_cons]
    rw [splitNl_append, h1]
    simp [h2]

/-- Claim C2 (amended): for a line formed by a JSON-carrying marker
followed by a payload whose trimmed text is not valid JSON, and carrying
no other marker, the `claude-message`, `tool-use`, `claude-fix` and
`tool-fix` branches decode to no event, while the `heal-failed` branch
decodes to a plain `failed` status event without detail fields; in all
cases lines are classified independently, so subsequent lines are
unaffected. -/
theorem c2_invalid_payload (p : List Char) (lines : List (List Char))
    (hp : parseJson (trimJs p) = none)
    (hl : ∀ l ∈ lines, ('\n' : Char) ∉ l) :
    classifyLine (mClaudeMessage ++ p) = none ∧
    (noneOfMarkers (mToolUse ++ p) [mClaudeMessage] →
      classifyLine (mToolUse ++ p) = none) ∧
    (noneOfMarkers (mClaudeFix ++ p) [mClaudeMessage, mToolUse] →
      classifyLine (mClaudeFix ++ p) = none) ∧
    (noneOfMarkers (mToolFix ++ p) [mClaudeMessage, mToolUse, mClaudeFix] →
      classifyLine (mToolFix ++ p) = none) ∧
    (noneOfMarkers (mHealFailed ++ p)
        [mClaudeMessage, mToolUse, mClaudeFix, mToolFix,
         mHealingStart, mHealingEnd, mHealSuccess] →
      classifyLine (mHealFailed ++ p) = some Event.healingStatusFailedPlain) ∧
    (feedChunk [] (linesJoin lines)).2 = lines.filterMap classifyLine := by
  refine ⟨?_, ?_, ?_, ?_, ?_, ?_⟩
  · unfold classifyLine
    rw [if_neg (trim_append_ne_nil mClaudeMessage p (by decide))]
    rw [if_pos (containsSub_append_self mClaudeMessage p (by decide))]
    unfold decClaudeMessage
    rw [payloadAfter_append_self mClaudeMessage p (by decide), hp]
  · intro hno
    have h1 := hno mClaudeMessage (by simp)
    unfold classifyLine
    rw [if_neg (trim_append_ne_nil mToolUse p (by decide))]
    rw [h1, if_neg (by decide : ¬ (false = true))]
    rw [if_pos (containsSub_append_self mToolUse p (by decide))]
    unfold decToolUse
    rw [payloadAfter_append_self mToolUse p (by decide), hp]
  · intro hno
    have h1 := hno mClaudeMessage (by simp)
    have h2 := hno mToolUse (by simp)
    unfold classifyLine
    rw [if_neg (trim_append_ne_nil mClaudeFix p (by decide))]
    rw [h1, if_neg (by decide : ¬ (false = true))]
    rw [h2, if_neg (by decide : ¬ (false = true))]
    rw [if_pos (containsSub_append_self mClaudeFix p (by decide))]
    unfold decClaudeFix
    rw [payloadAfter_append_self mClaudeFix p (by decide), hp]
  · intro hno
    have h1 := hno mClaudeMessage (by simp)
    have h2 := hno mToolUse (by simp)
    have h3 := hno mClaudeFix (by simp)
    unfold classifyLine
    rw [if_neg (trim_append_ne_nil mToolFix p (by decide))]
    rw [h1, if_neg (by decide : ¬ (false = true))]
    rw [h2, if_neg (by decide : ¬ (false = true))]
    rw [h3, if_neg (by decide : ¬ (false = true))]
    rw [if_pos (containsSub_append_self mToolFix p (by decide))]
    unfold decToolFix
    rw [payloadAfter_append_self mToolFix p (by decide), hp]
  · intro hno
    have h1 := hno mClaudeMessage (by simp)
    have h2 := hno mToolUse (by simp)
    have h3 := hno mClaudeFix (by simp)
    have h4 := hno mToolFix (by simp)
    have h5 := hno mHealingStart (by simp)
    have h6 := hno mHealingEnd (by simp)
    have h7 := hno mHealSuccess (by simp)
    unfold classifyLine
    rw [if_neg (trim_append_ne_nil mHealFailed p (by decide))]
    rw [h1, if_neg (by decide : ¬ (false = true))]
    rw [h2, if_neg (by decide : ¬ (false = true))]
    rw [h3, if_neg (by decide : ¬ (false = true))]
    rw [h4, if_neg (by decide : ¬ (false = true))]
    rw [h5, if_neg (by decide : ¬ (false = true))]
    rw [h6, if_neg (by decide : ¬ (false = true))]
    rw [h7, if_neg (by decide : ¬ (false = true))]
    rw [if_pos (containsSub_append_self mHealFailed p (by decide))]
    unfold decHealFailed
    rw [payloadAfter_append_self mHealFailed p (by decide), hp]
  · rw [feedChunk, List.nil_append, splitNl_linesJoin lines hl]

/-- Counterexample to claim C2 as stated: the line
`__HEAL_FAILED__oops` carries the heal-failed marker with a payload that
is not valid JSON, yet it decodes to an event (the plain `failed` healing
status), not to no event. -/
theorem c2_counterexample :
    parseJson (trimJs "oops".data) = none ∧
    classifyLine "__HEAL_FAILED__oops".data =
      some Event.healingStatusFailedPlain :=
  ⟨rfl, rfl⟩

theorem c2_witness :
    classifyLine (mClaudeMessage ++ "oops".data) = none ∧
    classifyLine (mHealFailed ++ "oops".data) =
      some Event.healingStatusFailedPlain :=
  ⟨(c2_invalid_payload "oops".data [] rfl (by simp)).1,
   (c2_invalid_payload "oops".data [] rfl (by simp)).2.2.2.2.1
     (by unfold noneOfMarkers; decide)⟩

/-! ## Claims C3, C4, C6, C7: the build-repair loop -/

lemma tagMsg_not_healingEnd (a : Nat) (msgs : List RawMsg) :
    (msgs.map (tagMsg a)).countP isHealingEndB = 0 := by
  rw [List.countP_eq_zero]
  intro e he
  rcases List.mem_map.mp he with ⟨m, -, rfl⟩
  cases m <;> simp [tagMsg, isHealingEndB]

lemma tagMsg_not_healFailed (a : Nat) (msgs : List RawMsg) :
    (msgs.map (tagMsg a)).countP isHealFailedB = 0 := by
  rw [List.countP_eq_zero]
  intro e he
  rcases List.mem_map.mp he with ⟨m, -, rfl⟩
  cases m <;> simp [tagMsg, isHealFailedB]

/-- One-step unfolding of the loop body (the `fuel + 1` equation of
`vfbGo`, with the local bindings expanded). -/
lemma vfbGo_step (bc : Nat → BuildResult)
    (rp : Nat → List Char → RepairBehavior) (maxA attempt fuel : Nat) :
    vfbGo bc rp maxA attempt (fuel + 1) =
      if attempt ≤ maxA then
        if (bc attempt).success then ⟨true, 1, 0, [], [], []⟩
        else if attempt < maxA then
          ⟨(vfbGo bc rp maxA (attempt + 1) fuel).buildSuccess,
           (vfbGo bc rp maxA (attempt + 1) fuel).buildCalls + 1,
           (vfbGo bc rp maxA (attempt + 1) fuel).repairCalls + 1,
           (bc attempt).output ::
             (vfbGo bc rp maxA (attempt + 1) fuel).repairDiags,
           LoopEvent.healingStart ::
             LoopEvent.claudeFix analyzingMsg attempt ::
               (((rp attempt (bc attempt).output).msgs.map (tagMsg attempt)) ++
                 LoopEvent.healingEnd ::
                   (vfbGo bc rp maxA (attempt + 1) fuel).events),
           (match (rp attempt (bc attempt).output).raised with
            | some m => [fixFailedTag ++ m]
            | none => []) ++
             (vfbGo bc rp maxA (attempt + 1) fuel).errLogs⟩
        else ⟨false, 1, 0, [], [.healFailed healFailedMsg maxA], []⟩
      else ⟨false, 0, 0, [], [], []⟩ := rfl

/-- With an always-failing build check, every iteration fails, repairs run
on all but the last attempt, the diagnostics are fed forward in order, and
the loop ends with the fixed `__HEAL_FAILED__` line. -/
lemma vfbGo_allFail (bc : Nat → BuildResult)
    (rp : Nat → List Char → RepairBehavior)
    (hf : ∀ n, (bc n).success = false) :
    ∀ fuel attempt maxA, attempt + fuel = maxA + 1 → 1 ≤ fuel →
      (vfbGo bc rp maxA attempt fuel).buildSuccess = false ∧
      (vfbGo bc rp maxA attempt fuel).buildCalls = fuel ∧
      (vfbGo bc rp maxA attempt fuel).repairCalls = fuel - 1 ∧
      (vfbGo bc rp maxA attempt fuel).repairDiags =
        (List.range (fuel - 1)).map (fun i => (bc (attempt + i)).output) ∧
      (vfbGo bc rp maxA attempt fuel).events.getLast? =
        some (LoopEvent.healFailed healFailedMsg maxA) := by
  intro fuel
  induction fuel with
  | zero => intro attempt maxA h h1; omega
  | succ f ih =>
    intro attempt maxA hsum h1
    have hle : attempt ≤ maxA := by omega
    cases f with
    | zero =>
      have hnlt : ¬ attempt < maxA := by omega
      rw [vfbGo_step, if_pos hle, hf attempt, if_neg (by decide : ¬ (false = true)),
        if_neg hnlt]
      have hmax : maxA = attempt := by omega
      subst hmax
      simp
    | succ f' =>
      have hlt : attempt < maxA := by omega
      have ihc := ih (attempt + 1) maxA (by omega) (by omega)
      rw [vfbGo_step, if_pos hle, hf attempt, if_neg (by decide : ¬ (false = true)),
        if_pos hlt]
      refine ⟨ihc.1, ?_, ?_, ?_, ?_⟩
      · show (vfbGo bc rp maxA (attempt + 1) (f' + 1)).buildCalls + 1 = f' + 1 + 1
        rw [ihc.2.1]
      · show (vfbGo bc rp maxA (attempt + 1) (f' + 1)).repairCalls + 1 =
          f' + 1 + 1 - 1
        rw [ihc.2.2.1]
        omega
      · show (bc attempt).output ::
            (vfbGo bc rp maxA (attempt + 1) (f' + 1)).repairDiags = _
        rw [ihc.2.2.2.1]
        simp only [Nat.succ_sub_one, List.range_succ_eq_map, List.map_cons,
          List.map_map, Nat.add_zero]
        refine congrArg (fun l => (bc attempt).output :: l) ?_
        refine List.map_congr_left ?_
        intro i _
        simp only [Function.comp_apply]
        refine congrArg (fun n => (bc n).output) (by omega)
      · show (LoopEvent.healingStart ::
            LoopEvent.claudeFix analyzingMsg attempt ::
              (((rp attempt (bc attempt).output).msgs.map (tagMsg attempt)) ++
                LoopEvent.healingEnd ::
                  (vfbGo bc rp maxA (attempt + 1) (f' + 1)).events)).getLast? = _
        have hsp :
            LoopEvent.healingStart ::
              LoopEvent.claudeFix analyzingMsg attempt ::
                (((rp attempt (bc attempt).output).msgs.map (tagMsg attempt)) ++
                  LoopEvent.healingEnd ::
                    (vfbGo bc rp maxA (attempt + 1) (f' + 1)).events) =
            (LoopEvent.healingStart ::
              LoopEvent.claudeFix analyzingMsg attempt ::
                (((rp attempt (bc attempt).output).msgs.map (tagMsg attempt)) ++
                  [LoopEvent.healingEnd])) ++
              (vfbGo bc rp maxA (attempt + 1) (f' + 1)).events := by
          simp
        rw [hsp]
        exact getLast?_append_right _ _ _ ihc.2.2.2.2

/-- Claim C3: for every `maxAttempts ≥ 1`, with a build check that fails
on every call, the loop performs exactly `maxAttempts` build-verification
calls and exactly `maxAttempts - 1` corrective-repair invocations, returns
`false` (`ExhaustedRetries`), and its final emitted marker is the
`__HEAL_FAILED__` line reporting `attempts = maxAttempts`. -/
theorem c3_exhausted_retries (bc : Nat → BuildResult)
    (rp : Nat → List Char → RepairBehavior) (maxA : Nat)
    (h1 : 1 ≤ maxA) (hf : ∀ n, (bc n).success = false) :
    (vfbRun bc rp maxA).buildCalls = maxA ∧
    (vfbRun bc rp maxA).repairCalls = maxA - 1 ∧
    (vfbRun bc rp maxA).buildSuccess = false ∧
    (vfbRun bc rp maxA).events.getLast? =
      some (LoopEvent.healFailed healFailedMsg maxA) := by
  have h := vfbGo_allFail bc rp hf maxA 1 maxA (by omega) (by omega)
  exact ⟨h.2.1, h.2.2.1, h.1, h.2.2.2.2⟩

theorem c3_witness :
    (vfbRun bcBoom rpSilent 3).buildCalls = 3 ∧
    (vfbRun bcBoom rpSilent 3).repairCalls = 3 - 1 ∧
    (vfbRun bcBoom rpSilent 3).buildSuccess = false ∧
    (vfbRun bcBoom rpSilent 3).events.getLast? =
      some (LoopEvent.healFailed healFailedMsg 3) :=
  c3_exhausted_retries bcBoom rpSilent 3 (by decide) (fun _ => rfl)

/-- Claim C4 (amended): when the loop reaches `ExhaustedRetries`, the
terminal `__HEAL_FAILED__` event carries the attempt count and a fixed
error string — not the diagnostic text of the most recent failed build;
the verbatim diagnostics are instead fed forward as the input of each
corrective-repair invocation. -/
theorem c4_heal_failed_payload (bc : Nat → BuildResult)
    (rp : Nat → List Char → RepairBehavior) (maxA : Nat)
    (h1 : 1 ≤ maxA) (hf : ∀ n, (bc n).success = false) :
    (vfbRun bc rp maxA).events.getLast? =
      some (LoopEvent.healFailed healFailedMsg maxA) ∧
    healFailedMsg =
      "Build verification failed after multiple fix attempts".data ∧
    (vfbRun bc rp maxA).repairDiags =
      (List.range (maxA - 1)).map (fun i => (bc (1 + i)).output) := by
  have h := vfbGo_allFail bc rp hf maxA 1 maxA (by omega) (by omega)
  exact ⟨h.2.2.2.2, rfl, h.2.2.2.1⟩

theorem c4_witness :
    (vfbRun bcBoom rpSilent 3).events.getLast? =
      some (LoopEvent.healFailed healFailedMsg 3) ∧
    healFailedMsg =
      "Build verification failed after multiple fix attempts".data ∧
    (vfbRun bcBoom rpSilent 3).repairDiags =
      (List.range (3 - 1)).map (fun i => (bcBoom (1 + i)).output) :=
  c4_heal_failed_payload bcBoom rpSilent 3 (by decide) (fun _ => rfl)

/-- Counterexample to claim C4 as stated: with a build check whose
diagnostic is always `boom`, the loop reaches `ExhaustedRetries` (the most
recent failed build's diagnostic being `boom`, as the fed-forward inputs
show), yet the terminal heal-failed event carries the fixed string, which
is not `boom`. -/
theorem c4_counterexample :
    (vfbRun bcBoom rpSilent 3).events.getLast? =
      some (LoopEvent.healFailed healFailedMsg 3) ∧
    (vfbRun bcBoom rpSilent 3).repairDiags = ["boom".data, "boom".data] ∧
    healFailedMsg ≠ "boom".data :=
  ⟨rfl, rfl, by decide⟩

lemma vfbGo_obs_congr (bc : Nat → BuildResult)
    (rp rp2 : Nat → List Char → RepairBehavior)
    (hm : ∀ a d, (rp a d).msgs = (rp2 a d).msgs) (maxA : Nat) :
    ∀ fuel attempt,
      obsOf (vfbGo bc rp maxA attempt fuel) =
        obsOf (vfbGo bc rp2 maxA attempt fuel) := by
  intro fuel
  induction fuel with
  | zero => intro attempt; rfl
  | succ f ih =>
    intro attempt
    rw [vfbGo_step, vfbGo_step]
    by_cases hle : attempt ≤ maxA
    · rw [if_pos hle, if_pos hle]
      by_cases hs : (bc attempt).success = true
      · rw [if_pos hs, if_pos hs]
      · rw [if_neg hs, if_neg hs]
        by_cases hlt : attempt < maxA
        · rw [if_pos hlt, if_pos hlt]
          have hrec := ih (attempt + 1)
          unfold obsOf at hrec ⊢
          simp only [Prod.mk.injEq] at hrec ⊢
          obtain ⟨e1, e2, e3, e4, e5⟩ := hrec
          exact ⟨e1, by rw [e2], by rw [e3], by rw [e4],
            by rw [hm attempt (bc attempt).output, e5]⟩
        · rw [if_neg hlt, if_neg hlt]
    · rw [if_neg hle, if_neg hle]

lemma vfbGo_healingEnd_count (bc : Nat → BuildResult)
    (rp : Nat → List Char → RepairBehavior) (maxA : Nat) :
    ∀ fuel attempt,
      ((vfbGo bc rp maxA attempt fuel).events).countP isHealingEndB =
        (vfbGo bc rp maxA attempt fuel).repairCalls := by
  intro fuel
  induction fuel with
  | zero => intro attempt; rfl
  | succ f ih =>
    intro attempt
    rw [vfbGo_step]
    by_cases hle : attempt ≤ maxA
    · rw [if_pos hle]
      by_cases hs : (bc attempt).success = true
      · rw [if_pos hs]
        rfl
      · rw [if_neg hs]
        by_cases hlt : attempt < maxA
        · rw [if_pos hlt]
          show (LoopEvent.healingStart ::
              LoopEvent.claudeFix analyzingMsg attempt ::
                (((rp attempt (bc attempt).output).msgs.map (tagMsg attempt)) ++
                  LoopEvent.healingEnd ::
                    (vfbGo bc rp maxA (attempt + 1) f).events)).countP
              isHealingEndB =
            (vfbGo bc rp maxA (attempt + 1) f).repairCalls + 1
          rw [List.countP_cons, List.countP_cons, List.countP_append,
            List.countP_cons, tagMsg_not_healingEnd, ih (attempt + 1)]
          simp [isHealingEndB]
        · rw [if_neg hlt]
          rfl
    · rw [if_neg hle]
      rfl

/-- Claim C6: if a corrective-generation invocation raises instead of
completing, nothing observable on stdout or in the return value changes
compared to an invocation that completes after the same messages: the
attempt is still counted, the loop still proceeds; and a `healing-end`
marker is emitted exactly once per repair invocation (also in the raising
run, by its `catch` block). -/
theorem c6_repair_raise_recovered (bc : Nat → BuildResult)
    (rp rp2 : Nat → List Char → RepairBehavior) (maxA : Nat)
    (hm : ∀ a d, (rp a d).msgs = (rp2 a d).msgs) :
    obsOf (vfbRun bc rp maxA) = obsOf (vfbRun bc rp2 maxA) ∧
    ((vfbRun bc rp maxA).events).countP isHealingEndB =
      (vfbRun bc rp maxA).repairCalls :=
  ⟨vfbGo_obs_congr bc rp rp2 hm maxA maxA 1,
   vfbGo_healingEnd_count bc rp maxA maxA 1⟩

theorem c6_witness :
    obsOf (vfbRun bcBoom rpRaising 3) = obsOf (vfbRun bcBoom rpSilent 3) ∧
    ((vfbRun bcBoom rpRaising 3).events).countP isHealingEndB =
      (vfbRun bcBoom rpRaising 3).repairCalls :=
  c6_repair_raise_recovered bcBoom rpRaising rpSilent 3 (fun _ _ => rfl)

/-- Claim C7: with `maxAttempts ≥ 2` and a build check that fails on the
first call and succeeds on the second, the loop performs exactly 2
build-verification calls and exactly 1 corrective-repair invocation,
returns `true` (`Succeeded`), and emits no heal-failed marker. -/
theorem c7_fail_once_succeeds (bc : Nat → BuildResult)
    (rp : Nat → List Char → RepairBehavior) (maxA : Nat)
    (h2 : 2 ≤ maxA) (hb1 : (bc 1).success = false)
    (hb2 : (bc 2).success = true) :
    (vfbRun bc rp maxA).buildCalls = 2 ∧
    (vfbRun bc rp maxA).repairCalls = 1 ∧
    (vfbRun bc rp maxA).buildSuccess = true ∧
    ((vfbRun bc rp maxA).events).countP isHealFailedB = 0 := by
  obtain ⟨k, rfl⟩ : ∃ k, maxA = k + 2 := ⟨maxA - 2, by omega⟩
  unfold vfbRun
  rw [show k + 2 = (k + 1) + 1 from rfl]
  rw [vfbGo_step, if_pos (show (1 : Nat) ≤ k + 1 + 1 by omega), hb1,
    if_neg (by decide : ¬ (false = true)),
    if_pos (show (1 : Nat) < k + 1 + 1 by omega),
    vfbGo_step, if_pos (show (2 : Nat) ≤ k + 1 + 1 by omega), hb2,
    if_pos rfl]
  refine ⟨rfl, rfl, rfl, ?_⟩
  show (LoopEvent.healingStart ::
      LoopEvent.claudeFix analyzingMsg 1 ::
        (((rp 1 (bc 1).output).msgs.map (tagMsg 1)) ++
          LoopEvent.healingEnd :: ([] : List LoopEvent))).countP
      isHealFailedB = 0
  rw [List.countP_cons, List.countP_cons, List.countP_append,
    List.countP_cons, tagMsg_not_healFailed]
  simp [isHealFailedB]

theorem c7_witness :
    (vfbRun bcFailOnce rpSilent 3).buildCalls = 2 ∧
    (vfbRun bcFailOnce rpSilent 3).repairCalls = 1 ∧
    (vfbRun bcFailOnce rpSilent 3).buildSuccess = true ∧
    ((vfbRun bcFailOnce rpSilent 3).events).countP isHealFailedB = 0 :=
  c7_fail_once_succeeds bcFailOnce rpSilent 3 (by decide) rfl rfl

end LovableClone
